import Mathlib

/-!
# Verification of the mev-boost relay API core (`src/api/service.go`)

A shallow embedding of the relay's bid/payload store, the block-submission
handler, the slot-eviction pass, the validator-registration front stage, the
proposer-duty resolver, and the `getHeader` / `getPayload` handlers, together
with theorems settling the specification's claims about them.

Machine integers are modelled as `Nat` (resp. `Int`) with explicit reductions
modulo `2^64` where the Go code performs `uint64` arithmetic, and an explicit
`uint64 → int64` reinterpretation where the code converts.  Go maps become
functions into `Option`; Go strings become Lean `String`s with an explicit
character-wise lowercasing that models `strings.ToLower`.
-/

namespace Relay

/-- `2^64`, the modulus of Go's `uint64` arithmetic. -/
def U64 : Nat := 2 ^ 64

/-- Models `strings.ToLower`: lowercase every character. -/
def toLowerStr (s : String) : String := ⟨s.data.map Char.toLower⟩

theorem length_toLowerStr (s : String) : (toLowerStr s).length = s.length :=
  List.length_map s.data Char.toLower

/-! ## Data model (from `service.go` and the go-boost-utils types it stores) -/

/-- `bidKey` from `service.go`: the competitive lane of a bid. -/
structure BidKey where
  slot : Nat
  parentHash : String
  proposerPubkey : String
deriving DecidableEq, Repr

/-- `blockKey` from `service.go`: identifies a stored execution payload. -/
structure BlockKey where
  slot : Nat
  blockHash : String
deriving DecidableEq, Repr

/-- The bid-trace message of a `types.BuilderSubmitBlockRequest`. -/
structure BidTraceMessage where
  slot : Nat
  parentHash : String
  proposerPubkey : String
  builderPubkey : String
  blockHash : String
  value : Nat
deriving DecidableEq, Repr

/-- An execution payload; only the block hash is inspected by the core, the
rest of the payload is kept abstract as `rest`. -/
structure ExecutionPayload where
  blockHash : String
  rest : Nat
deriving DecidableEq, Repr

/-- `types.BuilderSubmitBlockRequest`: the body of `submitNewBlock`. -/
structure BuilderSubmitBlockRequest where
  message : BidTraceMessage
  executionPayload : ExecutionPayload
deriving DecidableEq, Repr

/-- Modelled from the spec: `BuilderSubmitBlockRequestToSignedBuilderBid`
(defined outside `src/`) constructs the builder-bid header from the execution
payload, carries over the claimed value, and signs it with the relay key.  The
signature and the non-hash header fields are abstracted away; what the core
inspects is the embedded block hash (taken from the execution payload) and the
value. -/
structure SignedBuilderBid where
  headerBlockHash : String
  value : Nat
deriving DecidableEq, Repr

/-- `types.GetHeaderResponse`: versioned wrapper around a signed builder bid. -/
structure GetHeaderResponse where
  version : String
  data : SignedBuilderBid
deriving DecidableEq, Repr

/-- `types.GetPayloadResponse`: versioned wrapper around an execution payload. -/
structure GetPayloadResponse where
  version : String
  data : ExecutionPayload
deriving DecidableEq, Repr

/-- `VersionBellatrix` constant used for both response wrappers. -/
def VersionBellatrix : String := "bellatrix"

/-- The mutable relay state touched by the bid pipeline: the two maps guarded
by `bidLock`, plus the `debugAllowZeroValueBlocks` flag (set at construction
from the `DEBUG_ALLOW_ZERO_VALUE_BLOCKS` environment variable). -/
structure RelayState where
  bids : BidKey → Option GetHeaderResponse
  blocks : BlockKey → Option GetPayloadResponse
  debugAllowZeroValueBlocks : Bool

/-- The relay state with empty maps. -/
def initialState (debugFlag : Bool) : RelayState :=
  { bids := fun _ => none
    blocks := fun _ => none
    debugAllowZeroValueBlocks := debugFlag }

/-- HTTP responses produced by the handlers, abstracting the wire encoding. -/
inductive HResponse (α : Type) where
  | okEmpty
  | ok (a : α)
  | badRequest (msg : String)
  | noContent
  | serverError (msg : String)
deriving DecidableEq, Repr

/-! ## `handleSubmitNewBlock` -/

/-- The `bidKey` composed by `handleSubmitNewBlock` (lowercased hex). -/
def bidKeyOf (p : BuilderSubmitBlockRequest) : BidKey :=
  { slot := p.message.slot
    parentHash := toLowerStr p.message.parentHash
    proposerPubkey := toLowerStr p.message.proposerPubkey }

/-- The `blockKey` composed by `handleSubmitNewBlock` (lowercased hex). -/
def blockKeyOf (p : BuilderSubmitBlockRequest) : BlockKey :=
  { slot := p.message.slot
    blockHash := toLowerStr p.message.blockHash }

/-- `handleSubmitNewBlock` (body already decoded): reject zero-value bids
unless the debug flag is set, reject bids not strictly above the stored bid for
the same key, otherwise sign the builder bid and store header and payload under
the single lock.  Returns the new state and the response. -/
def handleSubmitNewBlock (st : RelayState) (p : BuilderSubmitBlockRequest) :
    RelayState × HResponse Unit :=
  if !st.debugAllowZeroValueBlocks && p.message.value == 0 then
    (st, .okEmpty)
  else
    match st.bids (bidKeyOf p) with
    | some prevBid =>
      if p.message.value ≤ prevBid.data.value then
        (st, .okEmpty)
      else
        (storeSubmission st p, .okEmpty)
    | none => (storeSubmission st p, .okEmpty)
where
  /-- The store step: insert the signed header at the `bidKey` and the payload
  at the `blockKey`, both from this submission. -/
  storeSubmission (st : RelayState) (p : BuilderSubmitBlockRequest) : RelayState :=
    { st with
      bids := fun k' =>
        if k' = bidKeyOf p then
          some { version := VersionBellatrix
                 data := { headerBlockHash := p.executionPayload.blockHash
                           value := p.message.value } }
        else st.bids k'
      blocks := fun k' =>
        if k' = blockKeyOf p then
          some { version := VersionBellatrix, data := p.executionPayload }
        else st.blocks k' }

/-- The acceptance condition of `handleSubmitNewBlock`, extracted: the debug
flag is set or the value is nonzero, and no bid is stored under the key or the
new value is strictly greater. -/
def shouldAccept (st : RelayState) (p : BuilderSubmitBlockRequest) : Bool :=
  (st.debugAllowZeroValueBlocks || p.message.value != 0) &&
    (match st.bids (bidKeyOf p) with
     | none => true
     | some prevBid => prevBid.data.value < p.message.value)

/-- Folding a sequence of submissions through the handler. -/
def foldSubmit (st : RelayState) : List BuilderSubmitBlockRequest → RelayState
  | [] => st
  | p :: ps => foldSubmit (handleSubmitNewBlock st p).1 ps

/-- The values of the submissions accepted along a call sequence whose
`bidKey` is `k` (acceptance judged against the evolving state, as the handler
does). -/
def acceptedValues (st : RelayState) (k : BidKey) :
    List BuilderSubmitBlockRequest → List Nat
  | [] => []
  | p :: ps =>
    let rest := acceptedValues (handleSubmitNewBlock st p).1 k ps
    if shouldAccept st p && (bidKeyOf p == k) then p.message.value :: rest else rest

/-- The value of the bid stored under `k`, when one is stored. -/
def bidValue (st : RelayState) (k : BidKey) : Option Nat :=
  (st.bids k).map fun r => r.data.value

/-- One step of a running maximum over `Option Nat`. -/
def pushMax (o : Option Nat) (v : Nat) : Option Nat :=
  some (match o with | none => v | some m => max m v)

/-- Maximum of a list, `none` on the empty list. -/
def maxValue? (vs : List Nat) : Option Nat :=
  vs.foldl pushMax none

/-! ### Lemmas about `handleSubmitNewBlock` -/

theorem submit_fst_eq (st : RelayState) (p : BuilderSubmitBlockRequest) :
    (handleSubmitNewBlock st p).1 =
      if shouldAccept st p then handleSubmitNewBlock.storeSubmission st p else st := by
  unfold handleSubmitNewBlock
  split
  · rename_i hz
    rw [Bool.and_eq_true] at hz
    obtain ⟨hd, hv⟩ := hz
    have hd' : st.debugAllowZeroValueBlocks = false := by simpa using hd
    have hv' : p.message.value = 0 := by simpa using hv
    have hacc : shouldAccept st p = false := by simp [shouldAccept, hd', hv']
    rw [hacc]
    simp
  · rename_i hz
    simp only [Bool.and_eq_true, Bool.not_eq_true', beq_iff_eq, not_and] at hz
    have hnz : (st.debugAllowZeroValueBlocks || p.message.value != 0) = true := by
      cases hd : st.debugAllowZeroValueBlocks with
      | true => simp
      | false =>
        simp only [Bool.false_or, bne_iff_ne, ne_eq]
        exact hz hd
    cases hb : st.bids (bidKeyOf p) with
    | none =>
      have hacc : shouldAccept st p = true := by simp [shouldAccept, hnz, hb]
      simp [hacc]
    | some prevBid =>
      by_cases hle : p.message.value ≤ prevBid.data.value
      · have hacc : shouldAccept st p = false := by
          simp [shouldAccept, hb]
          omega
        simp [hle, hacc]
      · have hacc : shouldAccept st p = true := by
          simp [shouldAccept, hnz, hb]
          omega
        simp [hle, hacc]

theorem submit_snd_eq (st : RelayState) (p : BuilderSubmitBlockRequest) :
    (handleSubmitNewBlock st p).2 = .okEmpty := by
  unfold handleSubmitNewBlock
  split
  · rfl
  · split
    · split <;> rfl
    · rfl

theorem store_bids_eq (st : RelayState) (p : BuilderSubmitBlockRequest) (k' : BidKey) :
    (handleSubmitNewBlock.storeSubmission st p).bids k' =
      if k' = bidKeyOf p then
        some { version := VersionBellatrix
               data := { headerBlockHash := p.executionPayload.blockHash
                         value := p.message.value } }
      else st.bids k' := rfl

theorem store_blocks_eq (st : RelayState) (p : BuilderSubmitBlockRequest) (k' : BlockKey) :
    (handleSubmitNewBlock.storeSubmission st p).blocks k' =
      if k' = blockKeyOf p then
        some { version := VersionBellatrix, data := p.executionPayload }
      else st.blocks k' := rfl

theorem submit_debug_eq (st : RelayState) (p : BuilderSubmitBlockRequest) :
    (handleSubmitNewBlock st p).1.debugAllowZeroValueBlocks =
      st.debugAllowZeroValueBlocks := by
  rw [submit_fst_eq]
  split <;> rfl

theorem foldSubmit_debug_eq (st : RelayState) (ps : List BuilderSubmitBlockRequest) :
    (foldSubmit st ps).debugAllowZeroValueBlocks = st.debugAllowZeroValueBlocks := by
  induction ps generalizing st with
  | nil => rfl
  | cons p ps ih => rw [foldSubmit, ih, submit_debug_eq]

/-- When rejected, the handler leaves the state untouched and answers 200 empty. -/
theorem submit_rejected (st : RelayState) (p : BuilderSubmitBlockRequest)
    (h : shouldAccept st p = false) :
    handleSubmitNewBlock st p = (st, .okEmpty) := by
  have h1 := submit_fst_eq st p
  have h2 := submit_snd_eq st p
  rw [h] at h1
  simp at h1
  exact Prod.ext h1 h2

/-- A submission mutates the state iff its acceptance condition holds. -/
theorem submit_mutates_iff (st : RelayState) (p : BuilderSubmitBlockRequest) :
    (handleSubmitNewBlock st p).1 ≠ st ↔ shouldAccept st p = true := by
  constructor
  · intro hne
    by_contra hacc
    rw [Bool.not_eq_true] at hacc
    exact hne (congrArg Prod.fst (submit_rejected st p hacc))
  · intro hacc heq
    have hbid : (handleSubmitNewBlock st p).1.bids (bidKeyOf p) = st.bids (bidKeyOf p) := by
      rw [heq]
    rw [submit_fst_eq, hacc, if_pos rfl, store_bids_eq, if_pos rfl] at hbid
    unfold shouldAccept at hacc
    rw [Bool.and_eq_true] at hacc
    cases hb : st.bids (bidKeyOf p) with
    | none => rw [hb] at hbid; cases hbid
    | some prevBid =>
      rw [hb] at hbid
      have hlt : prevBid.data.value < p.message.value := by
        have := hacc.2
        rw [hb] at this
        exact of_decide_eq_true this
      have : prevBid.data.value = p.message.value := by
        have := congrArg (fun o => (Option.map (fun r : GetHeaderResponse => r.data.value) o)) hbid
        simpa using this.symm
      omega

/-- The stored bid value at key `k` after one submission. -/
theorem submit_bidValue (st : RelayState) (p : BuilderSubmitBlockRequest) (k : BidKey) :
    bidValue (handleSubmitNewBlock st p).1 k =
      if shouldAccept st p && (bidKeyOf p == k) then some p.message.value
      else bidValue st k := by
  rw [submit_fst_eq]
  by_cases hacc : shouldAccept st p
  · rw [if_pos hacc, hacc, Bool.true_and]
    unfold bidValue
    rw [store_bids_eq]
    by_cases hk : k = bidKeyOf p
    · rw [if_pos hk]
      have : (bidKeyOf p == k) = true := by rw [hk]; exact beq_self_eq_true _
      rw [this, if_pos rfl]
      rfl
    · rw [if_neg hk]
      have : (bidKeyOf p == k) = false := by
        rw [beq_eq_false_iff_ne]
        exact fun h => hk h.symm
      rw [this]
      rfl
  · rw [if_neg hacc]
    have : shouldAccept st p = false := Bool.not_eq_true _ ▸ (by simpa using hacc)
    rw [this, Bool.false_and, if_neg (by simp)]

/-- After a sequence of submissions, the stored value at `k` is the running
maximum of the accepted values, seeded with the initially stored value. -/
theorem foldSubmit_bidValue (ps : List BuilderSubmitBlockRequest) (st : RelayState)
    (k : BidKey) :
    bidValue (foldSubmit st ps) k = (acceptedValues st k ps).foldl pushMax (bidValue st k) := by
  induction ps generalizing st with
  | nil => rfl
  | cons p ps ih =>
    rw [foldSubmit, acceptedValues, ih]
    by_cases hacc : shouldAccept st p = true ∧ (bidKeyOf p == k) = true
    · have hcond : (shouldAccept st p && (bidKeyOf p == k)) = true := by
        rw [Bool.and_eq_true]; exact hacc
      rw [if_pos hcond]
      rw [List.foldl_cons]
      congr 1
      rw [submit_bidValue, hcond, if_pos rfl]
      have hk : bidKeyOf p = k := by
        have := hacc.2
        exact eq_of_beq this
      unfold shouldAccept at hacc
      have h2 := hacc.1
      rw [Bool.and_eq_true] at h2
      unfold bidValue pushMax
      cases hb : st.bids k with
      | none => simp
      | some prevBid =>
        have hlt : prevBid.data.value < p.message.value := by
          have := h2.2
          rw [hk, hb] at this
          exact of_decide_eq_true this
        simp [Nat.max_eq_right (Nat.le_of_lt hlt)]
    · have hcond : (shouldAccept st p && (bidKeyOf p == k)) = false := by
        rw [Bool.and_eq_false_iff]
        rcases Decidable.not_and_iff_or_not.mp hacc with h | h
        · exact Or.inl (Bool.not_eq_true _ ▸ (by simpa using h))
        · exact Or.inr (Bool.not_eq_true _ ▸ (by simpa using h))
      rw [if_neg (by simp [hcond])]
      congr 1
      rw [submit_bidValue, hcond]
      simp

/-- `maxValue?` really computes the maximum: the result is an element of the
list that dominates every element, and it is `none` only on the empty list. -/
theorem maxValue?_spec (vs : List Nat) :
    (maxValue? vs = none ↔ vs = []) ∧
      ∀ m, maxValue? vs = some m → m ∈ vs ∧ ∀ v ∈ vs, v ≤ m := by
  have key : ∀ (l : List Nat) (o : Option Nat),
      (l.foldl pushMax o = none ↔ l = [] ∧ o = none) ∧
        ∀ m, l.foldl pushMax o = some m →
          (m ∈ l ∨ o = some m) ∧ (∀ v ∈ l, v ≤ m) ∧ (∀ v, o = some v → v ≤ m) := by
    intro l
    induction l with
    | nil =>
      intro o
      constructor
      · simp
      · intro m hm
        have hm' : o = some m := by simpa using hm
        refine ⟨Or.inr hm', by simp, ?_⟩
        intro v hv
        rw [hv] at hm'
        exact le_of_eq (Option.some.inj hm')
    | cons x xs ih =>
      intro o
      rw [List.foldl_cons]
      refine ⟨?_, ?_⟩
      · rw [(ih (pushMax o x)).1]
        simp [pushMax]
      · intro m hm
        obtain ⟨hmem, hall, hseed⟩ := (ih (pushMax o x)).2 m hm
        have hx : x ≤ m := by
          cases o with
          | none => exact hseed x rfl
          | some w =>
            have h1 : max w x ≤ m := hseed (max w x) rfl
            omega
        refine ⟨?_, ?_, ?_⟩
        · rcases hmem with h | h
          · exact Or.inl (List.mem_cons_of_mem _ h)
          · cases o with
            | none =>
              have hxm : x = m := Option.some.inj h
              exact Or.inl (hxm ▸ List.mem_cons_self _ _)
            | some w =>
              have hwm : max w x = m := Option.some.inj h
              rcases Nat.le_total w x with hw | hw
              · rw [Nat.max_eq_right hw] at hwm
                exact Or.inl (hwm ▸ List.mem_cons_self _ _)
              · rw [Nat.max_eq_left hw] at hwm
                exact Or.inr (congrArg some hwm)
        · intro v hv
          rcases List.mem_cons.mp hv with h | h
          · exact h ▸ hx
          · exact hall v h
        · intro v hv
          subst hv
          have := hseed (max v x) rfl
          omega
  constructor
  · rw [maxValue?, (key vs none).1]
    simp
  · intro m hm
    obtain ⟨hmem, hall, _⟩ := (key vs none).2 m hm
    rcases hmem with h | h
    · exact ⟨h, hall⟩
    · cases h

/-- Zero-freedom is preserved by a sequence of submissions when the debug flag
is unset. -/
theorem foldSubmit_zeroFree (ps : List BuilderSubmitBlockRequest) (st : RelayState)
    (hdbg : st.debugAllowZeroValueBlocks = false)
    (h0 : ∀ k r, st.bids k = some r → r.data.value ≠ 0) :
    ∀ k r, (foldSubmit st ps).bids k = some r → r.data.value ≠ 0 := by
  induction ps generalizing st with
  | nil => exact h0
  | cons p ps ih =>
    rw [foldSubmit]
    apply ih
    · rw [submit_debug_eq]; exact hdbg
    · intro k r hr
      rw [submit_fst_eq] at hr
      by_cases hacc : shouldAccept st p
      · rw [if_pos hacc, store_bids_eq] at hr
        by_cases hk : k = bidKeyOf p
        · rw [if_pos hk] at hr
          cases hr
          unfold shouldAccept at hacc
          rw [Bool.and_eq_true] at hacc
          have := hacc.1
          rw [hdbg, Bool.false_or] at this
          simpa using this
        · rw [if_neg hk] at hr
          exact h0 k r hr
      · rw [if_neg hacc] at hr
        exact h0 k r hr

/-! ## Slot eviction (`processNewSlot`) -/

/-- `headSlot - 10` as computed by the Go code in `uint64` arithmetic: wraps
around below 10 (in particular `evictCutoff 0 = 2^64 - 10`). -/
def evictCutoff (headSlot : Nat) : Nat := (headSlot + (U64 - 10)) % U64

/-- The eviction pass of `processNewSlot`: when `headSlot` is a multiple of
10, delete every bid and every payload whose slot is below `headSlot - 10`
(`uint64` subtraction); otherwise do nothing.  The duty refresh spawned by
`processNewSlot` is modelled separately (`updateProposerDuties`). -/
def processNewSlot (st : RelayState) (headSlot : Nat) : RelayState :=
  if headSlot % 10 == 0 then
    { st with
      bids := fun k => if k.slot < evictCutoff headSlot then none else st.bids k
      blocks := fun k => if k.slot < evictCutoff headSlot then none else st.blocks k }
  else st

/-- Folding a sequence of head-slot events through the eviction pass. -/
def foldProcess (st : RelayState) (hs : List Nat) : RelayState :=
  hs.foldl processNewSlot st

theorem processNewSlot_bids_preserve (st : RelayState) (h : Nat) (k : BidKey)
    (hk : h % 10 = 0 → ¬ k.slot < evictCutoff h) :
    (processNewSlot st h).bids k = st.bids k := by
  unfold processNewSlot
  by_cases hm : h % 10 = 0
  · have hm' : (h % 10 == 0) = true := by simpa using hm
    simp only [hm', if_true]
    exact if_neg (hk hm)
  · have hm' : (h % 10 == 0) = false := by simpa using hm
    simp [hm']

theorem processNewSlot_blocks_preserve (st : RelayState) (h : Nat) (k : BlockKey)
    (hk : h % 10 = 0 → ¬ k.slot < evictCutoff h) :
    (processNewSlot st h).blocks k = st.blocks k := by
  unfold processNewSlot
  by_cases hm : h % 10 = 0
  · have hm' : (h % 10 == 0) = true := by simpa using hm
    simp only [hm', if_true]
    exact if_neg (hk hm)
  · have hm' : (h % 10 == 0) = false := by simpa using hm
    simp [hm']

theorem foldProcess_bids_preserve (hs : List Nat) (st : RelayState) (k : BidKey)
    (hk : ∀ h ∈ hs, h % 10 = 0 → ¬ k.slot < evictCutoff h) :
    (foldProcess st hs).bids k = st.bids k := by
  induction hs generalizing st with
  | nil => rfl
  | cons h hs ih =>
    rw [foldProcess, List.foldl_cons]
    rw [show List.foldl processNewSlot (processNewSlot st h) hs =
          foldProcess (processNewSlot st h) hs from rfl]
    rw [ih _ fun h' hh' => hk h' (List.mem_cons_of_mem _ hh')]
    exact processNewSlot_bids_preserve st h k (hk h (List.mem_cons_self _ _))

theorem foldProcess_blocks_preserve (hs : List Nat) (st : RelayState) (k : BlockKey)
    (hk : ∀ h ∈ hs, h % 10 = 0 → ¬ k.slot < evictCutoff h) :
    (foldProcess st hs).blocks k = st.blocks k := by
  induction hs generalizing st with
  | nil => rfl
  | cons h hs ih =>
    rw [foldProcess, List.foldl_cons]
    rw [show List.foldl processNewSlot (processNewSlot st h) hs =
          foldProcess (processNewSlot st h) hs from rfl]
    rw [ih _ fun h' hh' => hk h' (List.mem_cons_of_mem _ hh')]
    exact processNewSlot_blocks_preserve st h k (hk h (List.mem_cons_self _ _))

/-! ## `handleGetHeader` and `handleGetPayload` -/

/-- Models `strconv.ParseUint(s, 10, 64)`: succeeds exactly on non-empty
all-digit strings whose value fits in 64 bits. -/
def parseUint64 (s : String) : Option Nat :=
  if s.data.isEmpty then none
  else if s.data.all Char.isDigit then
    let n := s.data.foldl (fun acc c => acc * 10 + (c.toNat - 48)) 0
    if n < U64 then some n else none
  else none

/-- `handleGetHeader`: validate slot / pubkey length / parent-hash length,
then look the bid up under the lowercased key. -/
def handleGetHeader (st : RelayState) (slotStr parentHashHex pubkey : String) :
    HResponse GetHeaderResponse :=
  match parseUint64 slotStr with
  | none => .badRequest "invalid slot"
  | some slot =>
    if pubkey.length ≠ 98 then .badRequest "invalid pubkey"
    else if parentHashHex.length ≠ 66 then .badRequest "invalid hash"
    else
      match st.bids { slot := slot
                      parentHash := toLowerStr parentHashHex
                      proposerPubkey := toLowerStr pubkey } with
      | none => .noContent
      | some bid => .ok bid

/-- The message of a `types.SignedBlindedBeaconBlock`; only the slot and the
execution-payload-header block hash are inspected by the handler. -/
structure BlindedBeaconBlockMessage where
  slot : Nat
  bodyExecutionPayloadHeaderBlockHash : String
deriving DecidableEq, Repr

/-- `types.SignedBlindedBeaconBlock` (body already decoded). -/
structure SignedBlindedBeaconBlock where
  message : BlindedBeaconBlockMessage
  signature : List Nat
deriving DecidableEq, Repr

/-- `handleGetPayload`: length-check the signature (no cryptographic
verification), then look the payload up under the lowercased block key. -/
def handleGetPayload (st : RelayState) (p : SignedBlindedBeaconBlock) :
    HResponse GetPayloadResponse :=
  if p.signature.length ≠ 96 then .badRequest "invalid signature"
  else
    match st.blocks { slot := p.message.slot
                      blockHash := toLowerStr p.message.bodyExecutionPayloadHeaderBlockHash } with
    | none => .serverError "no execution payload for this request"
    | some block => .ok block

/-! ## The bid-payload correspondence invariant (spec I2) -/

/-- Every stored bid has a payload stored under the block key formed from the
bid's slot and its header's block hash. -/
def bidsHavePayloads (st : RelayState) : Prop :=
  ∀ k r, st.bids k = some r →
    ∃ b, st.blocks { slot := k.slot, blockHash := toLowerStr r.data.headerBlockHash } = some b

theorem submit_preserves_inv (st : RelayState) (p : BuilderSubmitBlockRequest)
    (hwf : p.executionPayload.blockHash = p.message.blockHash)
    (hinv : bidsHavePayloads st) :
    bidsHavePayloads (handleSubmitNewBlock st p).1 := by
  rw [submit_fst_eq]
  by_cases hacc : shouldAccept st p
  · rw [if_pos hacc]
    intro k r hr
    rw [store_bids_eq] at hr
    rw [store_blocks_eq]
    by_cases hk : k = bidKeyOf p
    · rw [if_pos hk] at hr
      cases hr
      refine ⟨{ version := VersionBellatrix, data := p.executionPayload }, ?_⟩
      rw [if_pos ?_]
      rw [hk]
      show ({ slot := p.message.slot, blockHash := toLowerStr p.executionPayload.blockHash }
        : BlockKey) = blockKeyOf p
      rw [hwf]
      rfl
    · rw [if_neg hk] at hr
      obtain ⟨b, hb⟩ := hinv k r hr
      by_cases hbk : ({ slot := k.slot, blockHash := toLowerStr r.data.headerBlockHash }
          : BlockKey) = blockKeyOf p
      · exact ⟨_, if_pos hbk⟩
      · rw [if_neg hbk]
        exact ⟨b, hb⟩
  · rw [if_neg hacc]
    exact hinv

theorem evict_preserves_inv (st : RelayState) (h : Nat)
    (hinv : bidsHavePayloads st) :
    bidsHavePayloads (processNewSlot st h) := by
  unfold processNewSlot
  by_cases hm : (h % 10 == 0) = true
  · rw [if_pos hm]
    intro k r hr
    simp only at hr ⊢
    by_cases hs : k.slot < evictCutoff h
    · rw [if_pos hs] at hr
      cases hr
    · rw [if_neg hs] at hr
      obtain ⟨b, hb⟩ := hinv k r hr
      exact ⟨b, by rw [if_neg hs]; exact hb⟩
  · rw [if_neg hm]
    exact hinv

/-! ## Concrete fixtures used by the witnesses -/

/-- A concrete builder submission: slot 100, value 10. -/
def exSubmitA : BuilderSubmitBlockRequest :=
  { message := { slot := 100, parentHash := "0xaa", proposerPubkey := "0xbb"
                 builderPubkey := "0xb1", blockHash := "0xcc", value := 10 }
    executionPayload := { blockHash := "0xcc", rest := 1 } }

/-- A second submission in the same lane: slot 100, value 20, other block. -/
def exSubmitB : BuilderSubmitBlockRequest :=
  { message := { slot := 100, parentHash := "0xaa", proposerPubkey := "0xbb"
                 builderPubkey := "0xb2", blockHash := "0xdd", value := 20 }
    executionPayload := { blockHash := "0xdd", rest := 2 } }

/-- The bid key shared by `exSubmitA` and `exSubmitB`. -/
def exKey : BidKey := { slot := 100, parentHash := "0xaa", proposerPubkey := "0xbb" }

/-- The state after accepting `exSubmitA` from the empty store. -/
def exStA : RelayState := (handleSubmitNewBlock (initialState false) exSubmitA).1

/-! ## Claim C1 -/

/-- **C1**: a `submitNewBlock` call mutates the bid/payload store iff the
zero-value debug flag is set or the value is nonzero, and no bid is stored
under its `bidKey` or the new value is strictly greater than the stored one
(`shouldAccept`); in every other case the handler responds 200 empty with both
maps unchanged.  Consequently, after any call sequence the bid stored under a
key is the maximum over the values of the accepted submissions for that key
(`maxValue?` being a genuine maximum), and with the flag unset no stored bid
ever has value zero. -/
theorem relay_c1_submit_semantics :
    (∀ st p, ((handleSubmitNewBlock st p).1 ≠ st ↔ shouldAccept st p = true)) ∧
    (∀ st p, shouldAccept st p = false → handleSubmitNewBlock st p = (st, .okEmpty)) ∧
    (∀ st k ps, st.bids k = none →
      bidValue (foldSubmit st ps) k = maxValue? (acceptedValues st k ps)) ∧
    (∀ vs : List Nat, (maxValue? vs = none ↔ vs = []) ∧
      ∀ m, maxValue? vs = some m → m ∈ vs ∧ ∀ v ∈ vs, v ≤ m) ∧
    (∀ st ps, st.debugAllowZeroValueBlocks = false →
      (∀ k r, st.bids k = some r → r.data.value ≠ 0) →
      ∀ k r, (foldSubmit st ps).bids k = some r → r.data.value ≠ 0) := by
  refine ⟨submit_mutates_iff, submit_rejected, ?_, maxValue?_spec,
    fun st ps h1 h2 => foldSubmit_zeroFree ps st h1 h2⟩
  intro st k ps h
  have hnone : bidValue st k = none := by rw [bidValue, h]; rfl
  rw [foldSubmit_bidValue, hnone, maxValue?]

/-- Witness for C1: concrete two-submission run from the empty store. -/
theorem relay_c1_submit_semantics_witness :
    (initialState false).bids exKey = none ∧
      bidValue (foldSubmit (initialState false) [exSubmitA, exSubmitB]) exKey =
        maxValue? (acceptedValues (initialState false) exKey [exSubmitA, exSubmitB]) :=
  ⟨rfl, relay_c1_submit_semantics.2.2.1 (initialState false) exKey [exSubmitA, exSubmitB] rfl⟩

/-! ## Claim C3 -/

/-- **C3**: for every head slot `h` (a `uint64`), when `h mod 10 = 0` the
eviction pass of `processNewSlot` removes from both maps exactly the entries
with slot below `h - 10` — `uint64` subtraction, which for `h ≥ 10` is the
plain `h - 10` (the wrap at `h = 0` is claim C9) — leaving every other entry
unchanged; when `h mod 10 ≠ 0` the maps are left entirely unchanged. -/
theorem relay_c3_eviction (st : RelayState) (h : Nat) (hlt : h < U64) :
    (h % 10 = 0 →
      (∀ k : BidKey, k.slot < evictCutoff h → (processNewSlot st h).bids k = none) ∧
      (∀ k : BlockKey, k.slot < evictCutoff h → (processNewSlot st h).blocks k = none) ∧
      (∀ k : BidKey, ¬ k.slot < evictCutoff h → (processNewSlot st h).bids k = st.bids k) ∧
      (∀ k : BlockKey, ¬ k.slot < evictCutoff h → (processNewSlot st h).blocks k = st.blocks k)) ∧
    (h % 10 ≠ 0 → processNewSlot st h = st) ∧
    (10 ≤ h → evictCutoff h = h - 10) := by
  refine ⟨?_, ?_, ?_⟩
  · intro hm
    have hm' : (h % 10 == 0) = true := by simpa using hm
    refine ⟨?_, ?_, fun k hk => processNewSlot_bids_preserve st h k fun _ => hk,
      fun k hk => processNewSlot_blocks_preserve st h k fun _ => hk⟩
    · intro k hk
      unfold processNewSlot
      simp only [hm', if_true]
      exact if_pos hk
    · intro k hk
      unfold processNewSlot
      simp only [hm', if_true]
      exact if_pos hk
  · intro hm
    have hm' : (h % 10 == 0) = false := by simpa using hm
    unfold processNewSlot
    simp [hm']
  · intro h10
    have hU : U64 = 18446744073709551616 := by norm_num [U64]
    rw [hU] at hlt
    unfold evictCutoff
    rw [hU]
    omega

/-- Witness for C3: head slot 120 evicts the slot-100 bid of `exStA` and a
non-multiple-of-10 head slot changes nothing. -/
theorem relay_c3_eviction_witness :
    (120 : Nat) < U64 ∧ 120 % 10 = 0 ∧ exKey.slot < evictCutoff 120 ∧
      (processNewSlot exStA 120).bids exKey = none :=
  ⟨by norm_num [U64], by norm_num, by norm_num [evictCutoff, U64, exKey],
    ((relay_c3_eviction exStA 120 (by norm_num [U64])).1 (by norm_num)).1 exKey
      (by norm_num [evictCutoff, U64, exKey])⟩

/-! ## Claim C9 -/

/-- **C9**: at head slot 0 (a multiple of 10) the cutoff `headSlot - 10`
wraps in `uint64` arithmetic to `2^64 - 10`, so the eviction pass removes
every stored bid and payload whose slot is below `2^64 - 10` — in practice the
whole store — rather than removing nothing. -/
theorem relay_c9_cutoff_wraparound (st : RelayState) :
    evictCutoff 0 = U64 - 10 ∧
    (∀ k : BidKey, k.slot < U64 - 10 → (processNewSlot st 0).bids k = none) ∧
    (∀ k : BlockKey, k.slot < U64 - 10 → (processNewSlot st 0).blocks k = none) := by
  have hc : evictCutoff 0 = U64 - 10 := by
    have hU : U64 = 18446744073709551616 := by norm_num [U64]
    unfold evictCutoff
    rw [hU]
  refine ⟨hc, ?_, ?_⟩
  · intro k hk
    unfold processNewSlot
    simp only [Nat.zero_mod, if_true, beq_self_eq_true]
    exact if_pos (hc ▸ hk)
  · intro k hk
    unfold processNewSlot
    simp only [Nat.zero_mod, if_true, beq_self_eq_true]
    exact if_pos (hc ▸ hk)

/-- Witness for C9: processing head slot 0 wipes the slot-100 bid stored in
`exStA`, even though no slot is older than `0 - 10` in plain arithmetic. -/
theorem relay_c9_cutoff_wraparound_witness :
    exKey.slot < U64 - 10 ∧ (processNewSlot exStA 0).bids exKey = none :=
  ⟨by norm_num [U64, exKey],
    (relay_c9_cutoff_wraparound exStA).2.1 exKey (by norm_num [U64, exKey])⟩

/-! ## Claim C2 -/

theorem submit_bids_at_key (st : RelayState) (p : BuilderSubmitBlockRequest)
    (hacc : shouldAccept st p = true) :
    (handleSubmitNewBlock st p).1.bids (bidKeyOf p) =
      some { version := VersionBellatrix
             data := { headerBlockHash := p.executionPayload.blockHash
                       value := p.message.value } } := by
  rw [submit_fst_eq, if_pos hacc, store_bids_eq, if_pos rfl]

theorem submit_blocks_at_key (st : RelayState) (p : BuilderSubmitBlockRequest)
    (hacc : shouldAccept st p = true) :
    (handleSubmitNewBlock st p).1.blocks (blockKeyOf p) =
      some { version := VersionBellatrix, data := p.executionPayload } := by
  rw [submit_fst_eq, if_pos hacc, store_blocks_eq, if_pos rfl]

/-- **C2**: every accepted `submitNewBlock` stores the signed header under
`BidKey(slot, lower(parentHash), lower(proposerPubkey))` and the payload under
`BlockKey(slot, lower(blockHash))` from the same submission, so that `getHeader`
for that key returns a header whose embedded block hash equals the submission's
block hash, `getPayload` for `(slot, blockHash)` returns the submitted
execution payload, and both survive every head-slot event that does not evict
the submission's slot; moreover for every stored bid a corresponding payload
entry exists (spec I2), an invariant preserved by submissions and evictions. -/
theorem relay_c2_header_payload_roundtrip :
    (∀ st p, shouldAccept st p = true →
      p.executionPayload.blockHash = p.message.blockHash →
      ((handleSubmitNewBlock st p).1.bids (bidKeyOf p) =
          some { version := VersionBellatrix
                 data := { headerBlockHash := p.message.blockHash
                           value := p.message.value } }) ∧
      ((handleSubmitNewBlock st p).1.blocks (blockKeyOf p) =
          some { version := VersionBellatrix, data := p.executionPayload }) ∧
      (∀ slotStr ph pk, parseUint64 slotStr = some p.message.slot →
        toLowerStr ph = toLowerStr p.message.parentHash →
        toLowerStr pk = toLowerStr p.message.proposerPubkey →
        ph.length = 66 → pk.length = 98 →
        handleGetHeader (handleSubmitNewBlock st p).1 slotStr ph pk =
          .ok { version := VersionBellatrix
                data := { headerBlockHash := p.message.blockHash
                          value := p.message.value } }) ∧
      (∀ q : SignedBlindedBeaconBlock, q.message.slot = p.message.slot →
        toLowerStr q.message.bodyExecutionPayloadHeaderBlockHash =
          toLowerStr p.message.blockHash →
        q.signature.length = 96 →
        handleGetPayload (handleSubmitNewBlock st p).1 q =
          .ok { version := VersionBellatrix, data := p.executionPayload }) ∧
      (∀ hs : List Nat, (∀ h ∈ hs, h % 10 = 0 → ¬ p.message.slot < evictCutoff h) →
        (foldProcess (handleSubmitNewBlock st p).1 hs).bids (bidKeyOf p) =
            (handleSubmitNewBlock st p).1.bids (bidKeyOf p) ∧
          (foldProcess (handleSubmitNewBlock st p).1 hs).blocks (blockKeyOf p) =
            (handleSubmitNewBlock st p).1.blocks (blockKeyOf p))) ∧
    (∀ st p, p.executionPayload.blockHash = p.message.blockHash →
      bidsHavePayloads st → bidsHavePayloads (handleSubmitNewBlock st p).1) ∧
    (∀ st h, bidsHavePayloads st → bidsHavePayloads (processNewSlot st h)) := by
  refine ⟨?_, submit_preserves_inv, evict_preserves_inv⟩
  intro st p hacc hwf
  have hbid := submit_bids_at_key st p hacc
  have hblock := submit_blocks_at_key st p hacc
  rw [hwf] at hbid
  refine ⟨hbid, hblock, ?_, ?_, ?_⟩
  · intro slotStr ph pk hslot hph hpk hl66 hl98
    unfold handleGetHeader
    simp only [hslot]
    have h98 : ¬ pk.length ≠ 98 := by rw [hl98]; simp
    have h66 : ¬ ph.length ≠ 66 := by rw [hl66]; simp
    rw [if_neg h98, if_neg h66, hph, hpk]
    have hkey : ({ slot := p.message.slot
                   parentHash := toLowerStr p.message.parentHash
                   proposerPubkey := toLowerStr p.message.proposerPubkey } : BidKey) =
        bidKeyOf p := rfl
    rw [hkey, hbid]
  · intro q hqs hqh hql
    unfold handleGetPayload
    have h96 : ¬ q.signature.length ≠ 96 := by rw [hql]; simp
    rw [if_neg h96, hqs, hqh]
    have hkey : ({ slot := p.message.slot
                   blockHash := toLowerStr p.message.blockHash } : BlockKey) =
        blockKeyOf p := rfl
    rw [hkey, hblock]
  · intro hs hns
    exact ⟨foldProcess_bids_preserve hs _ _ fun h hh => (by
        have := hns h hh
        simpa [bidKeyOf] using this),
      foldProcess_blocks_preserve hs _ _ fun h hh => (by
        have := hns h hh
        simpa [blockKeyOf] using this)⟩

/-- Witness for C2: the accepted `exSubmitA` is stored at its bid key with its
block hash embedded in the header. -/
theorem relay_c2_header_payload_roundtrip_witness :
    shouldAccept (initialState false) exSubmitA = true ∧
      exSubmitA.executionPayload.blockHash = exSubmitA.message.blockHash ∧
      exStA.bids (bidKeyOf exSubmitA) =
        some { version := VersionBellatrix
               data := { headerBlockHash := exSubmitA.message.blockHash
                         value := exSubmitA.message.value } } :=
  ⟨rfl, rfl,
    (relay_c2_header_payload_roundtrip.1 (initialState false) exSubmitA rfl rfl).1⟩

/-! ## Claims C7 and C8 -/

/-- **C7**: `getHeader` responds 400 exactly when the slot does not parse as
an unsigned 64-bit decimal, the pubkey is not 98 characters, or the parent
hash is not 66 characters; otherwise it consults the store at
`BidKey(slot, lower(parentHash), lower(pubkey))`, answering 204 when absent
and 200 with the stored header when present; and the handler's answer depends
only on the lowercase forms of the two hex path segments, so a lookup succeeds
regardless of the hex case used in the path relative to the submission's. -/
theorem relay_c7_getHeader_semantics :
    (∀ st slotStr ph pk,
      ((∃ msg, handleGetHeader st slotStr ph pk = .badRequest msg) ↔
        (parseUint64 slotStr = none ∨ pk.length ≠ 98 ∨ ph.length ≠ 66))) ∧
    (∀ st slotStr ph pk slot, parseUint64 slotStr = some slot →
      pk.length = 98 → ph.length = 66 →
      ((st.bids { slot := slot, parentHash := toLowerStr ph, proposerPubkey := toLowerStr pk }
          = none → handleGetHeader st slotStr ph pk = .noContent) ∧
        (∀ r, st.bids { slot := slot, parentHash := toLowerStr ph
                        proposerPubkey := toLowerStr pk } = some r →
          handleGetHeader st slotStr ph pk = .ok r))) ∧
    (∀ st slotStr ph ph' pk pk', toLowerStr ph = toLowerStr ph' →
      toLowerStr pk = toLowerStr pk' →
      handleGetHeader st slotStr ph pk = handleGetHeader st slotStr ph' pk') := by
  refine ⟨?_, ?_, ?_⟩
  · intro st slotStr ph pk
    cases hps : parseUint64 slotStr with
    | none => simp [handleGetHeader, hps]
    | some slot =>
      by_cases h98 : pk.length = 98
      · by_cases h66 : ph.length = 66
        · cases hb : st.bids { slot := slot, parentHash := toLowerStr ph
                               proposerPubkey := toLowerStr pk } with
          | none => simp [handleGetHeader, hps, h98, h66, hb]
          | some r => simp [handleGetHeader, hps, h98, h66, hb]
        · simp [handleGetHeader, hps, h98, h66]
      · simp [handleGetHeader, hps, h98]
  · intro st slotStr ph pk slot hps h98 h66
    constructor
    · intro hb
      simp [handleGetHeader, hps, h98, h66, hb]
    · intro r hb
      simp [handleGetHeader, hps, h98, h66, hb]
  · intro st slotStr ph ph' pk pk' hph hpk
    have hl1 : ph.length = ph'.length := by
      rw [← length_toLowerStr ph, ← length_toLowerStr ph', hph]
    have hl2 : pk.length = pk'.length := by
      rw [← length_toLowerStr pk, ← length_toLowerStr pk', hpk]
    unfold handleGetHeader
    cases parseUint64 slotStr with
    | none => rfl
    | some slot => rw [hph, hpk, hl1, hl2]

/-- **C8**: `getPayload` (body already decoded) responds 400 iff the signature
length is not 96 bytes; otherwise it consults the store at
`BlockKey(message.slot, lower(blockHash))`, answering 500 with a diagnostic
when absent and 200 with the stored payload when present; and the response is
unchanged under any substitution of the signature bytes that preserves the
length — the handler performs no cryptographic verification. -/
theorem relay_c8_getPayload_semantics :
    (∀ st q, ((∃ msg, handleGetPayload st q = .badRequest msg) ↔
      q.signature.length ≠ 96)) ∧
    (∀ st q, q.signature.length = 96 →
      ((st.blocks { slot := q.message.slot
                    blockHash := toLowerStr q.message.bodyExecutionPayloadHeaderBlockHash }
          = none →
        handleGetPayload st q = .serverError "no execution payload for this request") ∧
      (∀ b, st.blocks { slot := q.message.slot
                        blockHash := toLowerStr q.message.bodyExecutionPayloadHeaderBlockHash }
          = some b → handleGetPayload st q = .ok b))) ∧
    (∀ st m sig sig', sig.length = sig'.length →
      handleGetPayload st { message := m, signature := sig } =
        handleGetPayload st { message := m, signature := sig' }) := by
  refine ⟨?_, ?_, ?_⟩
  · intro st q
    by_cases h96 : q.signature.length = 96
    · cases hb : st.blocks { slot := q.message.slot
                             blockHash := toLowerStr q.message.bodyExecutionPayloadHeaderBlockHash } with
      | none => simp [handleGetPayload, h96, hb]
      | some b => simp [handleGetPayload, h96, hb]
    · simp [handleGetPayload, h96]
  · intro st q h96
    constructor
    · intro hb
      simp [handleGetPayload, h96, hb]
    · intro b hb
      simp [handleGetPayload, h96, hb]
  · intro st m sig sig' hl
    unfold handleGetPayload
    rw [hl]

/-! ### Fixtures for the C7 / C8 witnesses -/

/-- A lowercase 66-character parent hash. -/
def exParentLower : String := "0x" ++ ⟨List.replicate 64 'a'⟩

/-- The same parent hash in uppercase hex. -/
def exParentUpper : String := "0x" ++ ⟨List.replicate 64 'A'⟩

/-- A lowercase 98-character proposer pubkey. -/
def exPubLower : String := "0x" ++ ⟨List.replicate 96 'b'⟩

/-- The same pubkey in uppercase hex. -/
def exPubUpper : String := "0x" ++ ⟨List.replicate 96 'B'⟩

/-- A submission at slot 7 whose hex fields use the uppercase forms. -/
def exSubmitC : BuilderSubmitBlockRequest :=
  { message := { slot := 7, parentHash := exParentUpper, proposerPubkey := exPubUpper
                 builderPubkey := "0xb3", blockHash := "0xCC", value := 3 }
    executionPayload := { blockHash := "0xCC", rest := 3 } }

/-- The state after accepting `exSubmitC` from the empty store. -/
def exStC : RelayState := (handleSubmitNewBlock (initialState false) exSubmitC).1

/-- The header response stored for `exSubmitC`. -/
def exHdrC : GetHeaderResponse :=
  { version := VersionBellatrix, data := { headerBlockHash := "0xCC", value := 3 } }

/-- Witness for C7: a header submitted with uppercase hex is found by a
`getHeader` request using the lowercase forms. -/
theorem relay_c7_getHeader_semantics_witness :
    parseUint64 "7" = some 7 ∧ exPubLower.length = 98 ∧ exParentLower.length = 66 ∧
      exStC.bids { slot := 7, parentHash := toLowerStr exParentLower
                   proposerPubkey := toLowerStr exPubLower } = some exHdrC ∧
      handleGetHeader exStC "7" exParentLower exPubLower = .ok exHdrC :=
  ⟨by decide, by decide, by decide, by decide,
    (relay_c7_getHeader_semantics.2.1 exStC "7" exParentLower exPubLower 7
        (by decide) (by decide) (by decide)).2 exHdrC (by decide)⟩

/-- The payload stored for `exSubmitC`. -/
def exPayloadC : GetPayloadResponse :=
  { version := VersionBellatrix, data := { blockHash := "0xCC", rest := 3 } }

/-- A blinded-block request for `exSubmitC`'s payload with a lowercase hash
and a 96-byte signature. -/
def exBlindedC : SignedBlindedBeaconBlock :=
  { message := { slot := 7, bodyExecutionPayloadHeaderBlockHash := "0xcc" }
    signature := List.replicate 96 0 }

/-- Witness for C8: the payload submitted under `0xCC` is served for a
request naming `0xcc`, with only the signature length checked. -/
theorem relay_c8_getPayload_semantics_witness :
    exBlindedC.signature.length = 96 ∧
      exStC.blocks { slot := exBlindedC.message.slot
                     blockHash := toLowerStr exBlindedC.message.bodyExecutionPayloadHeaderBlockHash }
        = some exPayloadC ∧
      handleGetPayload exStC exBlindedC = .ok exPayloadC :=
  ⟨by decide, by decide,
    (relay_c8_getPayload_semantics.2.1 exStC exBlindedC (by decide)).2 exPayloadC (by decide)⟩

/-! ## The validator-registration front stage (`handleRegisterValidator`) -/

/-- Go's `int64(t)` reinterpretation of a `uint64` value: values of at least
`2^63` wrap to negatives. -/
def uint64ToInt64 (t : Nat) : Int :=
  if t < 2 ^ 63 then (t : Int) else (t : Int) - (U64 : Int)

/-- Go's `int64` subtraction: the mathematical difference reduced modulo
`2^64` into `[-2^63, 2^63)` (i.e. two's-complement wrap on overflow). -/
def int64Sub (a b : Int) : Int := (a - b + 2 ^ 63) % 2 ^ 64 - 2 ^ 63

/-- `types.RegisterValidatorRequestMessage`; the pubkey is kept as its byte
sequence (the hex rendering used by the datastore keys is injective in it). -/
structure RegistrationMessage where
  feeRecipient : String
  gasLimit : Nat
  timestamp : Nat
  pubkey : List Nat
deriving DecidableEq, Repr

/-- `types.SignedValidatorRegistration`; a missing message decodes to `none`
(Go `nil`). -/
structure SignedValidatorRegistration where
  message : Option RegistrationMessage
  signature : List Nat
deriving DecidableEq, Repr

/-- The two datastore queries made synchronously by the front stage.
`registrationTimestamp` models `GetValidatorRegistrationTimestamp` (whose
error, if any, is logged and ignored by the handler). -/
structure RegDatastore where
  isKnownValidator : List Nat → Bool
  registrationTimestamp : List Nat → Nat

/-- The error reasons the front stage can record in `errorResp`. -/
inductive RegError where
  | invalidPubkeyLength
  | invalidSignatureLength
  | timestampTooFar
  | notKnownValidator (pubkey : List Nat)
deriving DecidableEq, Repr

/-- The response message rendered for each error reason (for
`notKnownValidator` the Go code appends the pubkey hex). -/
def RegError.text : RegError → String
  | .invalidPubkeyLength => "invalid pubkey length"
  | .invalidSignatureLength => "invalid signature length"
  | .timestampTooFar => "timestamp too far in the future"
  | .notKnownValidator _ => "not a known validator"

/-- One iteration of the registration loop: the accumulator carries the
entries handed to the worker queue so far and the current `errorResp`. -/
def registerStep (ds : RegDatastore) (startTimestamp : Int)
    (acc : List SignedValidatorRegistration × Option RegError)
    (r : SignedValidatorRegistration) :
    List SignedValidatorRegistration × Option RegError :=
  match r.message with
  | none => acc
  | some m =>
    if m.pubkey.length ≠ 48 then (acc.1, some .invalidPubkeyLength)
    else if r.signature.length ≠ 96 then (acc.1, some .invalidSignatureLength)
    else if int64Sub (uint64ToInt64 m.timestamp) startTimestamp > 10 then
      (acc.1, some .timestampTooFar)
    else if ¬ ds.isKnownValidator m.pubkey then (acc.1, some (.notKnownValidator m.pubkey))
    else if m.timestamp ≤ ds.registrationTimestamp m.pubkey then acc
    else (acc.1 ++ [r], acc.2)

/-- `handleRegisterValidator` (body already decoded): run the loop over the
batch, returning the enqueued entries in order and the final `errorResp`. -/
def handleRegisterValidator (ds : RegDatastore) (startTimestamp : Int)
    (payload : List SignedValidatorRegistration) :
    List SignedValidatorRegistration × Option RegError :=
  payload.foldl (registerStep ds startTimestamp) ([], none)

/-- The response of `handleRegisterValidator`: 400 with the recorded error
text when `errorResp` is non-empty, else empty OK. -/
def registerResponse : Option RegError → HResponse Unit
  | some e => .badRequest e.text
  | none => .okEmpty

/-- The per-entry classification of the front stage, with the checks in the
order the loop applies them. -/
inductive RegOutcome where
  | skipNoMessage
  | errored (e : RegError)
  | droppedStale
  | enqueued
deriving DecidableEq, Repr

/-- Classify one registration against the datastore, mirroring the loop's
checks in order: message present; pubkey length 48; signature length 96;
`int64(timestamp) - now ≤ 10` computed in wrapping `int64` arithmetic; known
validator; timestamp strictly newer than the stored one. -/
def checkRegistration (ds : RegDatastore) (startTimestamp : Int)
    (r : SignedValidatorRegistration) : RegOutcome :=
  match r.message with
  | none => .skipNoMessage
  | some m =>
    if m.pubkey.length ≠ 48 then .errored .invalidPubkeyLength
    else if r.signature.length ≠ 96 then .errored .invalidSignatureLength
    else if int64Sub (uint64ToInt64 m.timestamp) startTimestamp > 10 then
      .errored .timestampTooFar
    else if ¬ ds.isKnownValidator m.pubkey then .errored (.notKnownValidator m.pubkey)
    else if m.timestamp ≤ ds.registrationTimestamp m.pubkey then .droppedStale
    else .enqueued

/-- The error reasons produced by a batch, in order. -/
def regErrors (ds : RegDatastore) (startTimestamp : Int)
    (payload : List SignedValidatorRegistration) : List RegError :=
  payload.filterMap fun r =>
    match checkRegistration ds startTimestamp r with
    | .errored e => some e
    | _ => none

theorem registerStep_eq (ds : RegDatastore) (start : Int)
    (acc : List SignedValidatorRegistration × Option RegError)
    (r : SignedValidatorRegistration) :
    registerStep ds start acc r =
      match checkRegistration ds start r with
      | .skipNoMessage => acc
      | .errored e => (acc.1, some e)
      | .droppedStale => acc
      | .enqueued => (acc.1 ++ [r], acc.2) := by
  unfold registerStep checkRegistration
  cases hm : r.message with
  | none => rfl
  | some m =>
    by_cases h1 : m.pubkey.length ≠ 48
    · simp [h1]
    · by_cases h2 : r.signature.length ≠ 96
      · simp [h1, h2]
      · by_cases h3 : int64Sub (uint64ToInt64 m.timestamp) start > 10
        · simp [h1, h2, h3]
        · by_cases h4 : ds.isKnownValidator m.pubkey
          · by_cases h5 : m.timestamp ≤ ds.registrationTimestamp m.pubkey
            · simp [h1, h2, h3, h4, h5]
            · simp [h1, h2, h3, h4, h5]
          · simp [h1, h2, h3, h4]

theorem regErrors_cons (ds : RegDatastore) (start : Int)
    (r : SignedValidatorRegistration) (rest : List SignedValidatorRegistration) :
    regErrors ds start (r :: rest) =
      (match checkRegistration ds start r with
       | .errored e => e :: regErrors ds start rest
       | _ => regErrors ds start rest) := by
  unfold regErrors
  rw [List.filterMap_cons]
  cases checkRegistration ds start r <;> rfl

theorem register_foldl (ds : RegDatastore) (start : Int)
    (payload : List SignedValidatorRegistration)
    (acc : List SignedValidatorRegistration × Option RegError) :
    payload.foldl (registerStep ds start) acc =
      (acc.1 ++ payload.filter (fun r => checkRegistration ds start r == .enqueued),
        match (regErrors ds start payload).getLast? with
        | some e => some e
        | none => acc.2) := by
  induction payload generalizing acc with
  | nil => simp [regErrors]
  | cons r rest ih =>
    rw [List.foldl_cons, registerStep_eq, regErrors_cons]
    cases hc : checkRegistration ds start r with
    | skipNoMessage =>
      rw [ih]
      simp [List.filter_cons, hc]
    | errored e =>
      rw [ih]
      refine Prod.ext ?_ ?_
      · simp [List.filter_cons, hc]
      · simp only []
        rw [List.getLast?_cons]
        cases hce : (regErrors ds start rest).getLast? <;> simp [hce]
    | droppedStale =>
      rw [ih]
      simp [List.filter_cons, hc]
    | enqueued =>
      rw [ih]
      refine Prod.ext ?_ ?_
      · simp [List.filter_cons, hc]
      · rfl

/-! ## Claim C4 -/

/-- **C4**: `handleRegisterValidator` applies the checks to each batch entry
in order (message present; pubkey length 48; signature length 96; timestamp at
most 10 s in the future with no lower bound; known validator; timestamp
strictly greater than the stored one, else silently dropped — the order being
fixed inside `checkRegistration`), enqueues exactly the entries that pass all
checks in input order, and responds 400 carrying the error reason of the last
entry that produced one when any entry did, else responds empty OK — even when
only some entries were enqueued. -/
theorem relay_c4_register_batch :
    ∀ (ds : RegDatastore) (start : Int) (payload : List SignedValidatorRegistration),
      ((handleRegisterValidator ds start payload).1 =
        payload.filter (fun r => checkRegistration ds start r == .enqueued)) ∧
      ((handleRegisterValidator ds start payload).2 =
        (regErrors ds start payload).getLast?) ∧
      (registerResponse (handleRegisterValidator ds start payload).2 =
        match (regErrors ds start payload).getLast? with
        | some e => .badRequest e.text
        | none => .okEmpty) := by
  intro ds start payload
  have h := register_foldl ds start payload ([], none)
  refine ⟨?_, ?_, ?_⟩
  · rw [handleRegisterValidator, h]
    simp
  · rw [handleRegisterValidator, h]
    cases (regErrors ds start payload).getLast? <;> rfl
  · rw [handleRegisterValidator, h]
    cases (regErrors ds start payload).getLast? <;> rfl

/-! ### Fixtures for claim C10 -/

/-- A registration message whose timestamp has the top `uint64` bit set. -/
def exRegMsg : RegistrationMessage :=
  { feeRecipient := "0xfee", gasLimit := 30000000
    timestamp := 2 ^ 63, pubkey := List.replicate 48 1 }

/-- The signed registration wrapping `exRegMsg`. -/
def exReg : SignedValidatorRegistration :=
  { message := some exRegMsg, signature := List.replicate 96 2 }

/-- A datastore that knows exactly `exRegMsg`'s validator, with no stored
registration timestamp. -/
def exRegDs : RegDatastore :=
  { isKnownValidator := fun pk => pk == List.replicate 48 1
    registrationTimestamp := fun _ => 0 }

/-! ## Claim C10 -/

/-- Counterexample to C10 as stated: at timestamp `2^63` and current time
1000 the `int64` subtraction `int64(2^63) - 1000` underflows and wraps to the
positive `2^63 - 1000 > 10`, so this registration — with valid lengths and a
known validator — IS rejected for timestamp drift ("timestamp too far in the
future"), contradicting "such a registration is never rejected for timestamp
drift". -/
theorem relay_c10_counterexample :
    exReg.message = some exRegMsg ∧ 2 ^ 63 ≤ exRegMsg.timestamp ∧
      exRegMsg.timestamp < U64 ∧ (0 : Int) ≤ 1000 ∧
      exRegMsg.pubkey.length = 48 ∧ exReg.signature.length = 96 ∧
      exRegDs.isKnownValidator exRegMsg.pubkey = true ∧
      checkRegistration exRegDs 1000 exReg = .errored .timestampTooFar :=
  ⟨rfl, by norm_num [exRegMsg], by norm_num [exRegMsg, U64], by norm_num,
    by decide, by decide, by decide, by decide⟩

/-- **C10 (amended)**: the future-timestamp check converts the `uint64`
timestamp to `int64` and subtracts the current time in wrapping `int64`
arithmetic.  For every registration whose timestamp `t` satisfies
`2^63 + now ≤ t < 2^64`, the computed difference is negative, the "timestamp
too far in the future" check passes, and the registration can proceed through
the remaining checks and be enqueued; but for `t` in `[2^63, 2^63 + now)` the
subtraction underflows and wraps to the positive `t - now`, so the
registration is rejected for timestamp drift after all. -/
theorem relay_c10_timestamp_wraparound :
    ∀ (ds : RegDatastore) (start : Int) (r : SignedValidatorRegistration)
      (m : RegistrationMessage), r.message = some m →
      0 ≤ start → start < 2 ^ 63 → m.timestamp < U64 →
      ((2 ^ 63 + start ≤ (m.timestamp : Int) →
        (int64Sub (uint64ToInt64 m.timestamp) start < 0 ∧
          checkRegistration ds start r ≠ .errored .timestampTooFar ∧
          (m.pubkey.length = 48 → r.signature.length = 96 →
            ds.isKnownValidator m.pubkey = true →
            ds.registrationTimestamp m.pubkey < m.timestamp →
            checkRegistration ds start r = .enqueued))) ∧
       (2 ^ 63 ≤ m.timestamp → (m.timestamp : Int) < 2 ^ 63 + start →
        (int64Sub (uint64ToInt64 m.timestamp) start = (m.timestamp : Int) - start ∧
          (m.pubkey.length = 48 → r.signature.length = 96 →
            10 + start < (m.timestamp : Int) →
            checkRegistration ds start r = .errored .timestampTooFar)))) := by
  intro ds start r m hm hstart0 hstartlt hlt
  have hU : U64 = 18446744073709551616 := by norm_num [U64]
  have h63n : (2 : Nat) ^ 63 = 9223372036854775808 := by norm_num
  have h63i : (2 : Int) ^ 63 = 9223372036854775808 := by norm_num
  have h64i : (2 : Int) ^ 64 = 18446744073709551616 := by norm_num
  rw [hU] at hlt
  rw [h63i] at hstartlt
  constructor
  · intro hsafe
    rw [h63i] at hsafe
    have hbig : ¬ m.timestamp < 2 ^ 63 := by
      rw [h63n]
      omega
    have htd : int64Sub (uint64ToInt64 m.timestamp) start =
        (m.timestamp : Int) - 18446744073709551616 - start := by
      unfold uint64ToInt64 int64Sub
      rw [if_neg hbig, hU, h63i, h64i]
      push_cast
      omega
    have hnotfar : ¬ int64Sub (uint64ToInt64 m.timestamp) start > 10 := by
      rw [htd]
      omega
    refine ⟨by rw [htd]; omega, ?_, ?_⟩
    · unfold checkRegistration
      simp only [hm]
      by_cases h1 : m.pubkey.length ≠ 48
      · simp [h1]
      · by_cases h2 : r.signature.length ≠ 96
        · simp [h1, h2]
        · rw [if_neg h1, if_neg h2, if_neg hnotfar]
          by_cases h4 : ds.isKnownValidator m.pubkey
          · by_cases h5 : m.timestamp ≤ ds.registrationTimestamp m.pubkey
            · simp [h4, h5]
            · simp [h4, h5]
          · simp [h4]
    · intro hp hs hk hts
      unfold checkRegistration
      simp only [hm]
      rw [if_neg (by simp [hp]), if_neg (by simp [hs]), if_neg hnotfar,
        if_neg (by simp [hk]), if_neg (by omega)]
  · intro hbig hwrap
    rw [h63n] at hbig
    rw [h63i] at hwrap
    have hbig2 : ¬ m.timestamp < 2 ^ 63 := by
      rw [h63n]
      omega
    have htd : int64Sub (uint64ToInt64 m.timestamp) start = (m.timestamp : Int) - start := by
      unfold uint64ToInt64 int64Sub
      rw [if_neg hbig2, hU, h63i, h64i]
      push_cast
      omega
    refine ⟨htd, ?_⟩
    intro hp hs h10
    unfold checkRegistration
    simp only [hm]
    rw [if_neg (by simp [hp]), if_neg (by simp [hs]), if_pos (by rw [htd]; omega)]

/-! ### Fixture for the C10 witness -/

/-- Like `exRegMsg` but with a timestamp past `2^63 + now`, where the `int64`
difference is genuinely negative. -/
def exRegMsgSafe : RegistrationMessage :=
  { feeRecipient := "0xfee", gasLimit := 30000000
    timestamp := 2 ^ 63 + 2000, pubkey := List.replicate 48 1 }

/-- The signed registration wrapping `exRegMsgSafe`. -/
def exRegSafe : SignedValidatorRegistration :=
  { message := some exRegMsgSafe, signature := List.replicate 96 2 }

/-- Witness for the amended C10: a registration dated `2^63 + 2000` passes
the drift check at time 1000 and is enqueued. -/
theorem relay_c10_timestamp_wraparound_witness :
    exRegSafe.message = some exRegMsgSafe ∧ (0 : Int) ≤ 1000 ∧
      (1000 : Int) < 2 ^ 63 ∧ exRegMsgSafe.timestamp < U64 ∧
      2 ^ 63 + 1000 ≤ (exRegMsgSafe.timestamp : Int) ∧
      exRegMsgSafe.pubkey.length = 48 ∧ exRegSafe.signature.length = 96 ∧
      exRegDs.isKnownValidator exRegMsgSafe.pubkey = true ∧
      exRegDs.registrationTimestamp exRegMsgSafe.pubkey < exRegMsgSafe.timestamp ∧
      checkRegistration exRegDs 1000 exRegSafe = .enqueued :=
  ⟨rfl, by norm_num, by norm_num, by norm_num [exRegMsgSafe, U64],
    by norm_num [exRegMsgSafe], by decide, by decide, by decide,
    by decide,
    ((relay_c10_timestamp_wraparound exRegDs 1000 exRegSafe exRegMsgSafe rfl
        (by norm_num) (by norm_num) (by norm_num [exRegMsgSafe, U64])).1
      (by norm_num [exRegMsgSafe])).2.2
      (by decide) (by decide) (by decide) (by decide)⟩

/-! ## The proposer-duty resolver (`updateProposerDuties`)

The Go code scatters one goroutine per duty (each performing a datastore
lookup and sending its result on a channel) and then drains the channel.
Results therefore arrive in goroutine-completion order, which is not under
the program's control; the embedding makes that schedule explicit as a list
`order` of indices into the fetched duty list. -/

/-- A proposer duty from `beaconclient.GetProposerDuties`. -/
structure ProposerDuty where
  slot : Nat
  pubkey : String
deriving DecidableEq, Repr

/-- `types.BuilderGetValidatorsResponseEntry`: a duty joined with the stored
registration (`none` models a Go `nil` entry). -/
structure BuilderGetValidatorsResponseEntry where
  slot : Nat
  entry : Option SignedValidatorRegistration
deriving DecidableEq, Repr

/-- The duty-resolver state: the epoch high-water mark
(`proposerDutiesEpoch`) and the published duty list. -/
structure DutyState where
  proposerDutiesEpoch : Nat
  proposerDutiesResponse : List BuilderGetValidatorsResponseEntry
deriving DecidableEq, Repr

/-- The two external collaborators the resolver calls. -/
structure DutyEnv where
  getProposerDuties : Nat → Except String (List ProposerDuty)
  getValidatorRegistration : String → Except String (Option SignedValidatorRegistration)

/-- The gather loop: drain one result per scattered duty, in arrival order;
abort on the first received error; append the entries whose registration
exists, in arrival order. -/
def gatherDuties (env : DutyEnv) :
    List ProposerDuty → Except String (List BuilderGetValidatorsResponseEntry)
  | [] => .ok []
  | d :: rest =>
    match env.getValidatorRegistration d.pubkey with
    | .error e => .error e
    | .ok reg =>
      match gatherDuties env rest with
      | .error e => .error e
      | .ok tail =>
        .ok (if reg.isSome then { slot := d.slot, entry := reg } :: tail else tail)

/-- The outcome of one `updateProposerDuties` call, with counters for the
external calls it performed. -/
structure DutyRefreshResult where
  state : DutyState
  result : Except String Unit
  beaconCalls : Nat
  registrationLookups : Nat
deriving Repr

/-- `updateProposerDuties`: no-op behind the epoch high-water mark; otherwise
fetch the duties, scatter one registration lookup per duty, gather in
completion order `order`, and only on full success atomically replace the
published list and the mark. -/
def updateProposerDuties (env : DutyEnv) (st : DutyState) (epoch : Nat)
    (order : List Nat) : DutyRefreshResult :=
  if epoch ≤ st.proposerDutiesEpoch then
    { state := st, result := .ok (), beaconCalls := 0, registrationLookups := 0 }
  else
    match env.getProposerDuties epoch with
    | .error e =>
      { state := st, result := .error e, beaconCalls := 1, registrationLookups := 0 }
    | .ok ds =>
      match gatherDuties env (order.filterMap fun i => ds.get? i) with
      | .error e =>
        { state := st, result := .error e, beaconCalls := 1
          registrationLookups := ds.length }
      | .ok resp =>
        { state := { proposerDutiesEpoch := epoch, proposerDutiesResponse := resp }
          result := .ok (), beaconCalls := 1, registrationLookups := ds.length }

/-- The input-order join of a duty list with the stored registrations: the
duties whose registration lookup returns a registration, in input order. -/
def dutyJoin (env : DutyEnv) (ds : List ProposerDuty) :
    List BuilderGetValidatorsResponseEntry :=
  ds.filterMap fun d =>
    match env.getValidatorRegistration d.pubkey with
    | .ok (some reg) => some { slot := d.slot, entry := some reg }
    | _ => none

/-- A successful gather is exactly the input-order join of its arrival list. -/
theorem gatherDuties_ok_eq (env : DutyEnv) (l : List ProposerDuty)
    (resp : List BuilderGetValidatorsResponseEntry)
    (h : gatherDuties env l = .ok resp) : resp = dutyJoin env l := by
  induction l generalizing resp with
  | nil =>
    cases h
    rfl
  | cons d rest ih =>
    rw [gatherDuties] at h
    cases hl : env.getValidatorRegistration d.pubkey with
    | error e => rw [hl] at h; cases h
    | ok reg =>
      rw [hl] at h
      cases hg : gatherDuties env rest with
      | error e => rw [hg] at h; cases h
      | ok tail =>
        rw [hg] at h
        cases h
        cases reg with
        | none =>
          simp only [dutyJoin, List.filterMap_cons, hl]
          exact ih tail hg
        | some r =>
          simp only [dutyJoin, List.filterMap_cons, hl, Option.isSome_some, if_true]
          exact congrArg _ (ih tail hg)

/-- A failed gather exhibits a failing lookup among the arrival list. -/
theorem gatherDuties_error_mem (env : DutyEnv) (l : List ProposerDuty) (e : String)
    (h : gatherDuties env l = .error e) :
    ∃ d ∈ l, env.getValidatorRegistration d.pubkey = .error e := by
  induction l with
  | nil => cases h
  | cons d rest ih =>
    rw [gatherDuties] at h
    cases hl : env.getValidatorRegistration d.pubkey with
    | error e' =>
      rw [hl] at h
      cases h
      exact ⟨d, List.mem_cons_self _ _, hl⟩
    | ok reg =>
      rw [hl] at h
      cases hg : gatherDuties env rest with
      | error e' =>
        rw [hg] at h
        cases h
        obtain ⟨d', hd', hlook⟩ := ih hg
        exact ⟨d', List.mem_cons_of_mem _ hd', hlook⟩
      | ok tail => rw [hg] at h; cases h

/-- Conversely, a gather over a list containing a failing lookup cannot
succeed: the loop aborts on the first received error. -/
theorem gatherDuties_error_of_mem (env : DutyEnv) (l : List ProposerDuty)
    (hd : ∃ d ∈ l, ∃ e, env.getValidatorRegistration d.pubkey = .error e) :
    ∃ e, gatherDuties env l = .error e := by
  induction l with
  | nil =>
    obtain ⟨d, hd, _⟩ := hd
    cases hd
  | cons d rest ih =>
    obtain ⟨d', hd', e', he'⟩ := hd
    rw [gatherDuties]
    cases hl : env.getValidatorRegistration d.pubkey with
    | error e2 => exact ⟨e2, rfl⟩
    | ok reg =>
      rcases List.mem_cons.mp hd' with hdd | hdd
      · rw [hdd] at he'
        rw [he'] at hl
        cases hl
      · obtain ⟨e2, hg⟩ := ih ⟨d', hdd, e', he'⟩
        rw [hg]
        exact ⟨e2, rfl⟩

/-- Enumerating a list by `get?` over `range` returns the list itself. -/
theorem filterMap_get?_range (ds : List ProposerDuty) :
    ((List.range ds.length).filterMap fun i => ds.get? i) = ds := by
  induction ds with
  | nil => rfl
  | cons a t ih =>
    rw [List.length_cons, List.range_succ_eq_map, List.filterMap_cons,
      List.filterMap_map]
    have : ((fun i => (a :: t).get? i) ∘ Nat.succ) = fun i => t.get? i := rfl
    rw [this]
    simp only [List.get?, ih]

/-- An arrival order that is a permutation of the indices yields an arrival
list that is a permutation of the duty list. -/
theorem arrival_perm (ds : List ProposerDuty) (order : List Nat)
    (hperm : order.Perm (List.range ds.length)) :
    (order.filterMap fun i => ds.get? i).Perm ds := by
  have h1 := hperm.filterMap fun i => ds.get? i
  rw [filterMap_get?_range] at h1
  exact h1

/-! ### Shape equations for `updateProposerDuties` -/

theorem update_noop (env : DutyEnv) (st : DutyState) (epoch : Nat) (order : List Nat)
    (h : epoch ≤ st.proposerDutiesEpoch) :
    updateProposerDuties env st epoch order =
      { state := st, result := .ok (), beaconCalls := 0, registrationLookups := 0 } := by
  unfold updateProposerDuties
  rw [if_pos h]

theorem update_fetch_error (env : DutyEnv) (st : DutyState) (epoch : Nat)
    (order : List Nat) (e : String) (h : ¬ epoch ≤ st.proposerDutiesEpoch)
    (hf : env.getProposerDuties epoch = .error e) :
    updateProposerDuties env st epoch order =
      { state := st, result := .error e, beaconCalls := 1, registrationLookups := 0 } := by
  unfold updateProposerDuties
  rw [if_neg h]
  simp only [hf]

theorem update_gather_error (env : DutyEnv) (st : DutyState) (epoch : Nat)
    (order : List Nat) (ds : List ProposerDuty) (e : String)
    (h : ¬ epoch ≤ st.proposerDutiesEpoch)
    (hf : env.getProposerDuties epoch = .ok ds)
    (hg : gatherDuties env (order.filterMap fun i => ds.get? i) = .error e) :
    updateProposerDuties env st epoch order =
      { state := st, result := .error e, beaconCalls := 1
        registrationLookups := ds.length } := by
  unfold updateProposerDuties
  rw [if_neg h]
  simp only [hf, hg]

theorem update_success (env : DutyEnv) (st : DutyState) (epoch : Nat)
    (order : List Nat) (ds : List ProposerDuty)
    (resp : List BuilderGetValidatorsResponseEntry)
    (h : ¬ epoch ≤ st.proposerDutiesEpoch)
    (hf : env.getProposerDuties epoch = .ok ds)
    (hg : gatherDuties env (order.filterMap fun i => ds.get? i) = .ok resp) :
    updateProposerDuties env st epoch order =
      { state := { proposerDutiesEpoch := epoch, proposerDutiesResponse := resp }
        result := .ok (), beaconCalls := 1, registrationLookups := ds.length } := by
  unfold updateProposerDuties
  rw [if_neg h]
  simp only [hf, hg]

/-- Total case analysis on the fetched duties. -/
theorem fetch_cases (env : DutyEnv) (epoch : Nat) :
    (∃ e, env.getProposerDuties epoch = .error e) ∨
      (∃ ds, env.getProposerDuties epoch = .ok ds) := by
  cases env.getProposerDuties epoch with
  | error e => exact Or.inl ⟨e, rfl⟩
  | ok ds => exact Or.inr ⟨ds, rfl⟩

/-- Total case analysis on a gather. -/
theorem gather_cases (env : DutyEnv) (l : List ProposerDuty) :
    (∃ e, gatherDuties env l = .error e) ∨ (∃ resp, gatherDuties env l = .ok resp) := by
  cases gatherDuties env l with
  | error e => exact Or.inl ⟨e, rfl⟩
  | ok resp => exact Or.inr ⟨resp, rfl⟩

/-! ## Claim C5 -/

/-- **C5**: `updateProposerDuties(e)` is a no-op performing no beacon-node or
datastore call when `e` is at most the epoch high-water mark; a failing duty
fetch returns that error with the published list and the mark unchanged; a
failing registration lookup — for any schedule draining exactly one result
per scattered duty — aborts the refresh with the error of a failing lookup,
the list and mark unchanged; every error return preserves the state and
originates from the fetch or a lookup; and only on full success does it
replace the published list and set the mark to `e` — after which re-running
for the same epoch does no work, so the refresh work runs at most once per
epoch. -/
theorem relay_c5_duty_refresh_guard :
    ∀ (env : DutyEnv) (st : DutyState) (epoch : Nat) (order : List Nat),
      (epoch ≤ st.proposerDutiesEpoch →
        updateProposerDuties env st epoch order =
          { state := st, result := .ok (), beaconCalls := 0, registrationLookups := 0 }) ∧
      (∀ e, ¬ epoch ≤ st.proposerDutiesEpoch →
        env.getProposerDuties epoch = .error e →
        updateProposerDuties env st epoch order =
          { state := st, result := .error e, beaconCalls := 1, registrationLookups := 0 }) ∧
      (∀ ds, ¬ epoch ≤ st.proposerDutiesEpoch →
        env.getProposerDuties epoch = .ok ds →
        List.Perm order (List.range ds.length) →
        (∃ d ∈ ds, ∃ e, env.getValidatorRegistration d.pubkey = .error e) →
        ∃ e2, updateProposerDuties env st epoch order =
            { state := st, result := .error e2, beaconCalls := 1
              registrationLookups := ds.length } ∧
          ∃ d ∈ ds, env.getValidatorRegistration d.pubkey = .error e2) ∧
      (∀ e, (updateProposerDuties env st epoch order).result = .error e →
        (updateProposerDuties env st epoch order).state = st ∧
          (env.getProposerDuties epoch = .error e ∨
            ∃ ds, env.getProposerDuties epoch = .ok ds ∧
              ∃ d ∈ ds, env.getValidatorRegistration d.pubkey = .error e)) ∧
      (¬ epoch ≤ st.proposerDutiesEpoch →
        (updateProposerDuties env st epoch order).result = .ok () →
        ∃ ds resp, env.getProposerDuties epoch = .ok ds ∧
          gatherDuties env (order.filterMap fun i => ds.get? i) = .ok resp ∧
          (updateProposerDuties env st epoch order).state =
            { proposerDutiesEpoch := epoch, proposerDutiesResponse := resp }) ∧
      (¬ epoch ≤ st.proposerDutiesEpoch →
        (updateProposerDuties env st epoch order).result = .ok () →
        ∀ order2, updateProposerDuties env
            (updateProposerDuties env st epoch order).state epoch order2 =
          { state := (updateProposerDuties env st epoch order).state
            result := .ok (), beaconCalls := 0, registrationLookups := 0 }) := by
  intro env st epoch order
  refine ⟨update_noop env st epoch order,
    fun e h hf => update_fetch_error env st epoch order e h hf, ?_, ?_, ?_, ?_⟩
  · intro ds h hf hperm hex
    have harr : ∃ d ∈ (order.filterMap fun i => ds.get? i), ∃ e,
        env.getValidatorRegistration d.pubkey = .error e := by
      obtain ⟨d, hd, e, he⟩ := hex
      exact ⟨d, (arrival_perm ds order hperm).mem_iff.mpr hd, e, he⟩
    obtain ⟨e2, hg⟩ := gatherDuties_error_of_mem env _ harr
    obtain ⟨d2, hd2, hlook⟩ := gatherDuties_error_mem env _ e2 hg
    exact ⟨e2, update_gather_error env st epoch order ds e2 h hf hg,
      d2, (arrival_perm ds order hperm).mem_iff.mp hd2, hlook⟩
  · intro e he
    by_cases h : epoch ≤ st.proposerDutiesEpoch
    · rw [update_noop env st epoch order h] at he
      cases he
    · rcases fetch_cases env epoch with ⟨e2, hf⟩ | ⟨ds, hf⟩
      · rw [update_fetch_error env st epoch order e2 h hf] at he
        have he2 : Except.error (ε := String) (α := Unit) e2 = Except.error e := he
        injection he2 with hee
        subst hee
        rw [update_fetch_error env st epoch order e2 h hf]
        exact ⟨rfl, Or.inl hf⟩
      · rcases gather_cases env (order.filterMap fun i => ds.get? i) with ⟨e2, hg⟩ | ⟨resp, hg⟩
        · rw [update_gather_error env st epoch order ds e2 h hf hg] at he
          have he2 : Except.error (ε := String) (α := Unit) e2 = Except.error e := he
          injection he2 with hee
          subst hee
          rw [update_gather_error env st epoch order ds e2 h hf hg]
          refine ⟨rfl, Or.inr ⟨ds, hf, ?_⟩⟩
          obtain ⟨d, hd, hlook⟩ := gatherDuties_error_mem env _ e2 hg
          obtain ⟨i, hi, hget⟩ := List.mem_filterMap.mp hd
          exact ⟨d, List.get?_mem hget, hlook⟩
        · rw [update_success env st epoch order ds resp h hf hg] at he
          cases he
  · intro h hok
    rcases fetch_cases env epoch with ⟨e2, hf⟩ | ⟨ds, hf⟩
    · rw [update_fetch_error env st epoch order e2 h hf] at hok
      cases hok
    · rcases gather_cases env (order.filterMap fun i => ds.get? i) with ⟨e2, hg⟩ | ⟨resp, hg⟩
      · rw [update_gather_error env st epoch order ds e2 h hf hg] at hok
        cases hok
      · rw [update_success env st epoch order ds resp h hf hg]
        exact ⟨ds, resp, hf, hg, rfl⟩
  · intro h hok order2
    rcases fetch_cases env epoch with ⟨e2, hf⟩ | ⟨ds, hf⟩
    · rw [update_fetch_error env st epoch order e2 h hf] at hok
      cases hok
    · rcases gather_cases env (order.filterMap fun i => ds.get? i) with ⟨e2, hg⟩ | ⟨resp, hg⟩
      · rw [update_gather_error env st epoch order ds e2 h hf hg] at hok
        cases hok
      · rw [update_success env st epoch order ds resp h hf hg]
        exact update_noop env _ epoch order2 (Nat.le_refl epoch)

/-! ### Duty fixtures -/

/-- Two duties for epoch 1. -/
def exDutyA : ProposerDuty := { slot := 32, pubkey := "0xp1" }

/-- Second duty of the pair. -/
def exDutyB : ProposerDuty := { slot := 33, pubkey := "0xp2" }

/-- Registration stored for `exDutyA`'s proposer. -/
def exStoredRegA : SignedValidatorRegistration :=
  { message := some { feeRecipient := "0xf1", gasLimit := 1, timestamp := 1, pubkey := [1] }
    signature := [] }

/-- Registration stored for `exDutyB`'s proposer. -/
def exStoredRegB : SignedValidatorRegistration :=
  { message := some { feeRecipient := "0xf2", gasLimit := 2, timestamp := 2, pubkey := [2] }
    signature := [] }

/-- A beacon/datastore environment: epoch 1 has duties `[exDutyA, exDutyB]`,
both registered. -/
def exDutyEnv : DutyEnv :=
  { getProposerDuties := fun e =>
      if e = 1 then .ok [exDutyA, exDutyB] else .error "no duties"
    getValidatorRegistration := fun pk =>
      if pk = "0xp1" then .ok (some exStoredRegA)
      else if pk = "0xp2" then .ok (some exStoredRegB)
      else .ok none }

/-- The initial duty state: mark 0, empty list. -/
def exDutyState0 : DutyState := { proposerDutiesEpoch := 0, proposerDutiesResponse := [] }

/-- Witness for C5: with the mark already at 5, refreshing epoch 3 is the
recorded no-op. -/
theorem relay_c5_duty_refresh_guard_witness :
    3 ≤ (DutyState.mk 5 []).proposerDutiesEpoch ∧
      updateProposerDuties exDutyEnv (DutyState.mk 5 []) 3 [] =
        { state := DutyState.mk 5 [], result := .ok ()
          beaconCalls := 0, registrationLookups := 0 } :=
  ⟨by norm_num,
    (relay_c5_duty_refresh_guard exDutyEnv (DutyState.mk 5 []) 3 []).1 (by norm_num)⟩

/-! ## Claim C6 -/

/-- Counterexample to C6 as stated: with both lookups succeeding but the
second goroutine completing first (arrival order `[1, 0]`), the refresh
succeeds yet publishes `[B, A]`, not the beacon node's input order `[A, B]`.
The published list is therefore not always "arranged in the same order as
they appeared in the beacon node's duty list". -/
theorem relay_c6_counterexample :
    List.Perm [1, 0] (List.range ([exDutyA, exDutyB] : List ProposerDuty).length) ∧
      exDutyEnv.getProposerDuties 1 = .ok [exDutyA, exDutyB] ∧
      (updateProposerDuties exDutyEnv exDutyState0 1 [1, 0]).result = .ok () ∧
      (updateProposerDuties exDutyEnv exDutyState0 1 [1, 0]).state.proposerDutiesResponse ≠
        dutyJoin exDutyEnv [exDutyA, exDutyB] :=
  ⟨by decide, rfl, rfl, by decide⟩

/-- **C6 (amended)**: for every successful duty refresh, the published duty
list consists of exactly those duties from the beacon node's list whose
registration lookup returned a registration — as a multiset (a permutation of
the input-order join, the order being decided by lookup-completion order); it
equals the input-order join when results arrive in scatter (FIFO) order. -/
theorem relay_c6_duty_join_perm :
    ∀ (env : DutyEnv) (st : DutyState) (epoch : Nat) (order : List Nat)
      (ds : List ProposerDuty),
      st.proposerDutiesEpoch < epoch →
      env.getProposerDuties epoch = .ok ds →
      List.Perm order (List.range ds.length) →
      (updateProposerDuties env st epoch order).result = .ok () →
      ((updateProposerDuties env st epoch order).state.proposerDutiesResponse.Perm
          (dutyJoin env ds) ∧
        (order = List.range ds.length →
          (updateProposerDuties env st epoch order).state.proposerDutiesResponse =
            dutyJoin env ds)) := by
  intro env st epoch order ds hlt hf hperm hok
  have h : ¬ epoch ≤ st.proposerDutiesEpoch := by omega
  rcases gather_cases env (order.filterMap fun i => ds.get? i) with ⟨e2, hg⟩ | ⟨resp, hg⟩
  · rw [update_gather_error env st epoch order ds e2 h hf hg] at hok
    cases hok
  · rw [update_success env st epoch order ds resp h hf hg]
    have hresp := gatherDuties_ok_eq env _ resp hg
    constructor
    · show resp.Perm (dutyJoin env ds)
      rw [hresp]
      exact (arrival_perm ds order hperm).filterMap _
    · intro hord
      show resp = dutyJoin env ds
      rw [hresp, hord, filterMap_get?_range]

/-- Witness for the amended C6: with FIFO arrival order `[0, 1]` the refresh
publishes exactly the input-order join. -/
theorem relay_c6_duty_join_perm_witness :
    exDutyState0.proposerDutiesEpoch < 1 ∧
      exDutyEnv.getProposerDuties 1 = .ok [exDutyA, exDutyB] ∧
      (updateProposerDuties exDutyEnv exDutyState0 1 [0, 1]).state.proposerDutiesResponse =
        dutyJoin exDutyEnv [exDutyA, exDutyB] :=
  ⟨by decide, rfl,
    (relay_c6_duty_join_perm exDutyEnv exDutyState0 1 [0, 1] [exDutyA, exDutyB]
        (by decide) rfl (by decide) rfl).2 (by decide)⟩

end Relay

